import Mathlib

/-!
# Orbeon datatable widget (`datatable.js`): a shallow embedding

The embedding follows `src/resources-packaged/xbl/orbeon/datatable/datatable.js`.

* Pixel quantities are JavaScript numbers that the toolkit reports as whole pixels; they are
  modelled as `Int`.
* DOM objects are finite trees.  A position in a tree (the list of child indices from the
  root) plays the role of object identity.
* A handler that raises a JavaScript exception (here a `TypeError` on `null` or
  `undefined`) has the result `none`; `init` reports it in the field `raised`.
-/

namespace Datatable

/-! ## DOM trees -/

/-- An attribute: name and value. -/
abbrev Attr := String × String

/-- A DOM node.  Only elements have `nodeType == 1`, attributes and children. -/
inductive Node where
  | element (tag : String) (attrs : List Attr) (childNodes : List Node)
  | text (data : String)
  | comment (data : String)

/-- The DOM `nodeType` property. -/
def Node.nodeType : Node → Nat
  | .element _ _ _ => 1
  | .text _ => 3
  | .comment _ => 8

/-- The `childNodes` of a node (empty for non-elements). -/
def Node.childNodes : Node → List Node
  | .element _ _ c => c
  | _ => []

/-- The attributes of a node (none for non-elements). -/
def Node.attrs : Node → List Attr
  | .element _ a _ => a
  | _ => []

/-- The tag name of a node (empty for non-elements). -/
def Node.tagName : Node → String
  | .element t _ _ => t
  | _ => ""

/-- The DOM `removeAttribute(name)` on an attribute list. -/
def removeAttribute (attrs : List Attr) (name : String) : List Attr :=
  attrs.filter (fun a => a.1 != name)

/-- The DOM `hasAttribute(name)`. -/
def hasAttribute (attrs : List Attr) (name : String) : Bool :=
  attrs.any (fun a => a.1 == name)

/-- The value of an attribute as the reflecting DOM properties (`id`, `className`) give it:
the empty string when the attribute is absent. -/
def attrValue (attrs : List Attr) (name : String) : String :=
  match attrs.find? (fun a => a.1 == name) with
  | some a => a.2
  | none => ""

/-- Whether a node carries an `id` attribute. -/
def Node.hasId (n : Node) : Bool := hasAttribute n.attrs "id"

/-- The DOM `id` property. -/
def Node.id (n : Node) : String := attrValue n.attrs "id"

/-- The node at a position: the path lists the child indices from the root down. -/
def nodeAt : Node → List Nat → Option Node
  | n, [] => some n
  | n, i :: p =>
      match n.childNodes[i]? with
      | none => none
      | some c => nodeAt c p

/-- The characters that the JavaScript regular expression `\s` matches: the white space
and the line terminators of ECMAScript. -/
def isJsSpace (c : Char) : Bool :=
  c.toNat == 0x09 || c.toNat == 0x0A || c.toNat == 0x0B || c.toNat == 0x0C ||
  c.toNat == 0x0D || c.toNat == 0x20 || c.toNat == 0xA0 || c.toNat == 0x1680 ||
  (0x2000 ≤ c.toNat && c.toNat ≤ 0x200A) || c.toNat == 0x2028 || c.toNat == 0x2029 ||
  c.toNat == 0x202F || c.toNat == 0x205F || c.toNat == 0x3000 || c.toNat == 0xFEFF

/-- Splits a `className` into the words that `\s` separates (empty words included). -/
def splitWords : List Char → List (List Char)
  | [] => [[]]
  | c :: cs =>
      if isJsSpace c then [] :: splitWords cs
      else
        match splitWords cs with
        | [] => [[c]]
        | w :: ws => (c :: w) :: ws

/-- `YAHOO.util.Dom.hasClass(el, className)`, which tests the element's `className`
against `(?:^|\s+)className(?:\s+|$)`: for a class name that is one word of plain
characters, `className` is one of the words of the `class` attribute.  The empty class
name is never found. -/
def Node.hasClass (n : Node) (className : String) : Bool :=
  className != "" &&
    (splitWords (attrValue n.attrs "class").toList).contains className.toList

/-! ## `removeIdAttributes` -/

mutual
/-- `ORBEON.widgets.datatable.removeIdAttributes(element, skipSelf)` (lines 397-407).
The recursive call passes no second argument, so `skipSelf` is falsy below the root. -/
def removeIdAttributes : Node → Bool → Node
  | .element tag attrs childNodes, skipSelf =>
      .element tag (if !skipSelf then removeAttribute attrs "id" else attrs)
        (removeIdChildNodes childNodes)
  | .text d, _ => .text d
  | .comment d, _ => .comment d
/-- The `for` loop of `removeIdAttributes` over `element.childNodes`. -/
def removeIdChildNodes : List Node → List Node
  | [] => []
  | node :: rest =>
      (if node.nodeType == 1 then removeIdAttributes node false else node)
        :: removeIdChildNodes rest
end

/-- What `removeIdAttributes` must leave alone at one node: the kind of node, the tag name,
every attribute other than `id` (in order), the number of children, and the whole of a
non-element node. -/
def sameApartFromId : Node → Node → Prop
  | .element t a c, .element t2 a2 c2 =>
      t = t2 ∧ removeAttribute a "id" = removeAttribute a2 "id" ∧ c.length = c2.length
  | .text d, .text d2 => d = d2
  | .comment d, .comment d2 => d = d2
  | _, _ => False

/-! ## The constructor: flags and pixel dimensions -/

/-- A `YAHOO.util.Region`. -/
structure Region where
  top : Int
  right : Int
  bottom : Int
  left : Int
deriving DecidableEq

/-- The width of a region, `region.right - region.left`. -/
def Region.width (r : Region) : Int := r.right - r.left

/-- The height of a region, `region.bottom - region.top`. -/
def Region.height (r : Region) : Int := r.bottom - r.top

/-- The inline `style` object of an element: property name to value, `""` when unset. -/
abbrev InlineStyle := String → String

/-- `ORBEON.widgets.datatable.utils.getStyle(elt, property, defolt)` (lines 265-270). -/
def getStyle (style : InlineStyle) (property defolt : String) : String :=
  if style property == "" then defolt else style property

/-- The JavaScript string `n + 'px'`. -/
def px (n : Int) : String := toString n ++ "px"

/-- What `YAHOO.util.Dom.getRegion(this.table)` answers during the constructor: at line 39
(`initial`), at line 75 once the size restrictions are lifted (`unconstrained`), and at
line 85 after `setStyle(this.table, 'width', i + 'px')` (`atWidth i`). -/
structure Layout where
  initial : Region
  unconstrained : Region
  atWidth : Int → Region

/-- The variables of the probing loop (lines 83-92); `tried` records, in order, the widths
passed to `setStyle(this.table, 'width', i + 'px')`. -/
structure ProbeState where
  tableWidth : Int
  tableHeight : Int
  tried : List Int
deriving DecidableEq

/-- The loop `for (var i = this.tableWidth; i < 2000; i += 50)` of lines 83-92, entered
with loop variable `i`. -/
def probeLoop (getRegion : Int → Region) (i : Int) (s : ProbeState) : ProbeState :=
  if i < 2000 then
    let region := getRegion i
    let tableWidth := region.right - region.left
    let tableHeight := region.bottom - region.top
    let s1 : ProbeState := { s with tried := s.tried ++ [i] }
    probeLoop getRegion (i + 50)
      (if tableHeight < s1.tableHeight then
        { s1 with tableWidth := tableWidth, tableHeight := tableHeight }
      else s1)
  else s
termination_by (2000 - i).toNat
decreasing_by omega

/-- The properties of a datatable that lines 38-108 and 226-235 of the constructor
compute.  `containerWidth` is the local `width` given to the containers at line 114. -/
structure Widget where
  height : String
  scrollV : Bool
  scrollH : Bool
  scroll : Bool
  headBodySplit : Bool
  hasFixedWidthContainer : Bool
  hasFixedWidthTable : Bool
  tableWidth : Int
  tableHeight : Int
  containerWidth : String
  tried : List Int
deriving DecidableEq

/-- The constructor `ORBEON.widgets.datatable(element, index)`, lines 38-108 and 226-235:
the flags and the pixel dimensions.  `table` is the element, `style` its inline style,
`ie` is `YAHOO.env.ua.ie`.  The DOM assembly and the column loop in between write none of
these properties and are not part of this function. -/
def datatable (table : Node) (style : InlineStyle) (layout : Layout) (ie : Nat) : Widget :=
  let width := getStyle style "width" "auto"
  let region := layout.initial
  let pxWidth := region.right - region.left
  let width := if width.toList.contains '%' then px pxWidth else width
  let height := getStyle style "height" "auto"
  let scrollV := table.hasClass "fr-scrollV"
  let scrollH := table.hasClass "fr-scrollH"
  let scroll := scrollV || scrollH
  let headBodySplit := scroll
  let hasFixedWidthContainer := width != "auto"
  let hasFixedWidthTable := hasFixedWidthContainer && !scrollH
  let region := layout.unconstrained
  let tableWidth := region.right - region.left
  let tableHeight := region.bottom - region.top
  let sized : ProbeState × String :=
    if scrollH then
      let tableWidth := if pxWidth > tableWidth then pxWidth else tableWidth
      let s := probeLoop layout.atWidth tableWidth
        { tableWidth := tableWidth, tableHeight := tableHeight, tried := [] }
      ({ s with tableWidth := s.tableWidth + 19 }, width)
    else if scrollV then
      if hasFixedWidthTable then
        ({ tableWidth := tableWidth - 19, tableHeight := tableHeight, tried := [] }, px tableWidth)
      else
        ({ tableWidth := tableWidth, tableHeight := tableHeight, tried := [] },
          px (tableWidth + 19))
    else
      ({ tableWidth := tableWidth, tableHeight := tableHeight, tried := [] }, px tableWidth)
  let height :=
    if scrollH && !scrollV && height == "auto" && decide (ie > 0) then
      px (sized.1.tableHeight + 22)
    else height
  let reconsider := hasFixedWidthContainer && hasFixedWidthTable
  { height := height
    scrollV := scrollV
    scrollH := scrollH
    scroll := scroll
    headBodySplit := headBodySplit
    hasFixedWidthContainer := if reconsider then false else hasFixedWidthContainer
    hasFixedWidthTable := if reconsider then false else hasFixedWidthTable
    tableWidth := sized.1.tableWidth
    tableHeight := sized.1.tableHeight
    containerWidth := sized.2
    tried := sized.1.tried }

/-- The outcome of the probing loop that starts at width `W0` with the height `H0`, when
`atWidth w` is the region measured at width `w`: for some `n`, the widths `W0 + 50 * k`
below 2000 are those with `k < n`; `tried` lists them in order; `tableHeight` is at most
`H0` and at most every probed height; if no probe is lower than `H0` then
`tableHeight = H0` and `tableWidth = 19 + W0`; otherwise some probe `k` has the height
`tableHeight`, every earlier probe is strictly higher, and `tableWidth` is 19 plus the
width measured at probe `k`. -/
def ProbingOutcome (W0 H0 : Int) (atWidth : Int → Region) (d : Widget) : Prop :=
  ∃ n : Nat,
    (∀ k : Nat, W0 + 50 * (k : Int) < 2000 ↔ k < n) ∧
    d.tried = (List.range n).map (fun k : Nat => W0 + 50 * (k : Int)) ∧
    d.tableHeight ≤ H0 ∧
    (∀ k : Nat, k < n → d.tableHeight ≤ (atWidth (W0 + 50 * (k : Int))).height) ∧
    ((∀ k : Nat, k < n → H0 ≤ (atWidth (W0 + 50 * (k : Int))).height) →
      d.tableHeight = H0 ∧ d.tableWidth = 19 + W0) ∧
    ((∃ k : Nat, k < n ∧ (atWidth (W0 + 50 * (k : Int))).height < H0) →
      ∃ k : Nat, k < n ∧
        (atWidth (W0 + 50 * (k : Int))).height = d.tableHeight ∧
        (∀ j : Nat, j < k → d.tableHeight < (atWidth (W0 + 50 * (j : Int))).height) ∧
        d.tableWidth = 19 + (atWidth (W0 + 50 * (k : Int))).width)

/-! ## Column resizing -/

/-- The properties of a `style` object (of an element or of a CSS rule) that the widget
writes. -/
structure Style where
  width : String
  display : String
deriving DecidableEq

/-- What a style object does when a negative length is assigned to its `width`: current
browsers ignore the assignment, old Internet Explorer raises. -/
inductive StyleEngine where
  | ignores
  | raises
deriving DecidableEq

/-- The assignment `style.width = n + 'px'`, also made through
`YAHOO.util.Dom.setStyle(el, 'width', n + 'px')`.  A length that is not negative is
stored.  A negative length is not a width: the style object keeps what it had, or the
assignment raises (`none`). -/
def Style.setWidth (engine : StyleEngine) (s : Style) (n : Int) : Option Style :=
  if 0 ≤ n then some { s with width := px n }
  else
    match engine with
    | .ignores => some s
    | .raises => none

/-- The datatable as `adjustWidth` and `onDrag` see it.  `body` holds the styles of
`this.bodyContainer` and of the cloned body table `this.table`; both exist exactly when
`headBodySplit` is set (lines 127-136), and otherwise `this.table` is `this.header`. -/
structure TableState where
  width : Int
  tableWidth : Int
  hasFixedWidthContainer : Bool
  hasFixedWidthTable : Bool
  container : Style
  headerContainer : Style
  header : Style
  body : Option (Style × Style)
deriving DecidableEq

/-- The flag `this.headBodySplit`. -/
def TableState.headBodySplit (d : TableState) : Bool := d.body.isSome

/-- The assignment `this.datatable.table.style.display = value`. -/
def TableState.setTableDisplay (d : TableState) (value : String) : TableState :=
  match d.body with
  | some b => { d with body := some (b.1, { b.2 with display := value }) }
  | none => { d with header := { d.header with display := value } }

/-- `ORBEON.widgets.datatable.prototype.adjustWidth(deltaX, index)` (lines 240-256); the
result is `none` when an assignment of a width raises. -/
def adjustWidth (engine : StyleEngine) (d : TableState) (deltaX : Int) (_index : Nat) :
    Option TableState := do
  let d1 : TableState ←
    if !d.hasFixedWidthContainer then do
      let width := d.width + deltaX
      let container ← d.container.setWidth engine width
      let headerContainer ← d.headerContainer.setWidth engine width
      let body ←
        match d.body with
        | some b => (b.1.setWidth engine width).map (fun bc => some (bc, b.2))
        | none => some none
      pure { d with
        width := width
        container := container
        headerContainer := headerContainer
        body := body }
    else pure d
  if !d1.hasFixedWidthTable then do
    let tableWidth := d1.tableWidth + deltaX
    let header ← d1.header.setWidth engine tableWidth
    let body ←
      match d1.body with
      | some b => (b.2.setWidth engine tableWidth).map (fun t => some (b.1, t))
      | none => some none
    pure { d1 with tableWidth := tableWidth, header := header, body := body }
  else pure d1

/-- A `colResizer` once a drag has started: `rule` is the `style` of `this.rule` (`none`
for `null`), `styles` is `this.styles` (`none` for `null`); the constructor sets both to
`null` (lines 297-298) and the datatable constructor then calls `setRule` or
`setStyleArray` (lines 200-218). -/
structure ColResizer where
  index : Nat
  width : Int
  resizerX : Int
  rule : Option Style
  styles : Option (List Style)
deriving DecidableEq

/-- The method `setStyleArray` (lines 338-340). -/
def ColResizer.setStyleArray (r : ColResizer) (styles : List Style) : ColResizer :=
  { r with styles := some styles }

/-- The method `setRule` (lines 342-344). -/
def ColResizer.setRule (r : ColResizer) (rule : Style) : ColResizer :=
  { r with rule := some rule }

/-- The handler `onMouseDown` (lines 359-365): `linerRegion` is the region of `this.liner`,
`x` the horizontal position of the event. -/
def onMouseDown (r : ColResizer) (linerRegion : Region) (x : Int) : ColResizer :=
  { r with width := linerRegion.right - linerRegion.left, resizerX := x }

/-- The loop of lines 387-389, `this.styles[i].width = widthStyle` for every `i`, with
`widthStyle` the length `n` in pixels. -/
def setWidths (engine : StyleEngine) : List Style → Int → Option (List Style)
  | [], _ => some []
  | st :: rest, n =>
      match st.setWidth engine n with
      | none => none
      | some st2 => (setWidths engine rest n).map (fun rest2 => st2 :: rest2)

/-- The handler `onDrag` (lines 374-394) for a drag event at horizontal position `newX`.
The result is `none` when the handler raises: with neither a rule nor a style array,
`this.styles.length` is read on `null`; and an assignment of a width may raise. -/
def onDrag (engine : StyleEngine) (r : ColResizer) (d : TableState) (newX : Int) :
    Option (ColResizer × TableState) := do
  let d := d.setTableDisplay "none"
  let deltaX := newX - r.resizerX
  let d ← adjustWidth engine d deltaX r.index
  let r := { r with resizerX := newX }
  let width := r.width + deltaX
  if width > 0 && width != r.width then
    match r.rule with
    | some rule =>
        match rule.setWidth engine (width - 20) with
        | none => none
        | some rule2 =>
            some ({ r with rule := some rule2, width := width }, d.setTableDisplay "")
    | none =>
        match r.styles with
        | none => none
        | some styles =>
            match setWidths engine styles (width - 20) with
            | none => none
            | some styles2 =>
                some ({ r with styles := some styles2, width := width },
                  d.setTableDisplay "")
  else some (r, d.setTableDisplay "")

/-! ## The column loop of the constructor, as far as the resizers go -/

/-- What lines 192-198 find on `this.styleElt` for one column. -/
inductive StyleSheetApi where
  | addRule
  | insertRule (rule : Style)
  | neither
deriving DecidableEq

/-- One header column as the loop of lines 172-224 sees it: whether it carries
`yui-dt-resizeable`, what the style element offers, and the styles that lines 205-215
collect. -/
structure HeaderColumn where
  resizeable : Bool
  api : StyleSheetApi
  styles : List Style
deriving DecidableEq

/-- `new ORBEON.widgets.datatable.colResizer(index, th, datatable)` (lines 293-328) as far
as the fields of `ColResizer` go: no rule and no style array.  `width` and `resizerX` are
not set before `onMouseDown` and stand at 0 until then. -/
def newColResizer (index : Nat) : ColResizer :=
  { index := index, width := 0, resizerX := 0, rule := none, styles := none }

/-- One round of the loop of lines 172-224, for column `j`, as far as the resizer goes.
`rule` is the function-scoped local `rule`, which keeps its value from the round before.
The result is `none` when line 193 raises on the undeclared name `classname`. -/
def columnRound (ie : Nat) (j : Nat) (col : HeaderColumn) (rule : Option Style) :
    Option (Option Style × Option ColResizer) :=
  let colResizer : Option ColResizer :=
    if col.resizeable then some (newColResizer j) else none
  let afterSheet : Option (Option Style × Option ColResizer) :=
    if ie == 0 then
      let assigned : Option (Option Style) :=
        match col.api with
        | .addRule => none
        | .insertRule x => some (some x)
        | .neither => some rule
      assigned.map (fun rule =>
        (rule,
          match rule with
          | some x => colResizer.map (fun r => r.setRule x)
          | none => colResizer))
    else some (rule, colResizer)
  afterSheet.map (fun s =>
    match s.1 with
    | none => (s.1, s.2.map (fun r => r.setStyleArray col.styles))
    | some _ => s)

/-- The loop of lines 172-224 from column `j` on; the result is `this.colResizers`. -/
def columnLoop (ie : Nat) :
    Nat → List HeaderColumn → Option Style → List ColResizer → Option (List ColResizer)
  | _, [], _, colResizers => some colResizers
  | j, col :: rest, rule, colResizers =>
      match columnRound ie j col rule with
      | none => none
      | some s => columnLoop ie (j + 1) rest s.1 (colResizers ++ s.2.toList)

/-! ## Column sorting -/

/-- The selector `a.xforms-trigger:not(.xforms-disabled)`; tag names are kept in lower
case. -/
def isEnabledTrigger (n : Node) : Bool :=
  n.nodeType == 1 && n.tagName == "a" && n.hasClass "xforms-trigger" &&
    !n.hasClass "xforms-disabled"

mutual
/-- `YAHOO.util.Selector.query(selector, root, true)`: the first descendant of `root`, in
document order, that matches the selector, with its position under `root`; `none` stands
for `null`. -/
def queryFirst (selector : Node → Bool) : Node → Option (List Nat × Node)
  | .element _ _ childNodes => queryChildren selector childNodes 0
  | _ => none
/-- The search of `queryFirst` through the children from index `i` on. -/
def queryChildren (selector : Node → Bool) : List Node → Nat → Option (List Nat × Node)
  | [], _ => none
  | c :: rest, i =>
      if selector c then some ([i], c)
      else
        match queryFirst selector c with
        | some (p, n) => some (i :: p, n)
        | none => queryChildren selector rest (i + 1)
end

/-- Document order on positions: a node comes before its descendants, and before every
node under a later sibling. -/
def precedes : List Nat → List Nat → Bool
  | [], _ => true
  | _ :: _, [] => false
  | a :: p, b :: q => decide (a < b) || (a == b && precedes p q)

/-- A call `ORBEON.xforms.Document.dispatchEvent(targetId, eventName)`. -/
structure Dispatch where
  targetId : String
  eventName : String
deriving DecidableEq

/-- The click listener that `colSorter` puts on the liner (lines 279-284).  `target` is
the position, under the liner, of the element `YAHOO.util.Event.getTarget(ev)`.  The
result lists the calls of `dispatchEvent`; it is `none` when the handler raises, which is
when the query finds no link and `a.id` is read on `null`. -/
def colSorterClick (liner : Node) (target : List Nat) : Option (List Dispatch) :=
  let a := queryFirst isEnabledTrigger liner
  if some target != a.map (fun q => q.1) then
    match a with
    | none => none
    | some q => some [{ targetId := q.2.id, eventName := "DOMActivate" }]
  else some []

/-! ## Initialisation -/

mutual
/-- The elements of a tree in document order, the root first. -/
def elementsOf : Node → List Node
  | .element t a childNodes => .element t a childNodes :: elementsOfList childNodes
  | _ => []
/-- The elements of a list of trees in document order. -/
def elementsOfList : List Node → List Node
  | [] => []
  | c :: rest => elementsOf c ++ elementsOfList rest
end

/-- `YAHOO.util.Dom.getElementsByClassName(className, tag)` over the document. -/
def getElementsByClassName (document : Node) (className tag : String) : List Node :=
  (elementsOf document).filter (fun e => e.tagName == tag && e.hasClass className)

/-- The own properties of the object `ORBEON.widgets.datatable.datatables`. -/
abbrev Registry (DT : Type) := String → Option DT

/-- The test `datatables[klass] == undefined`.  The registry is a plain object literal, so
a property name that every object inherits (`inherited`, for instance `constructor`) never
reads as undefined. -/
def isUndefined {DT : Type} (inherited : String → Bool) (datatables : Registry DT)
    (klass : String) : Bool :=
  (datatables klass).isNone && !inherited klass

/-- `new ORBEON.widgets.datatable(element, index)`.  With `element` undefined the
constructor raises at line 33 (`this.header.getElementsByTagName`); on an element the
constructor body, `construct`, either completes or raises. -/
def newDatatable {DT : Type} (construct : Node → String → Option DT) :
    Option Node → String → Option DT
  | none, _ => none
  | some element, index => construct element index

/-- What a call of `init` did: the arguments of each `new ORBEON.widgets.datatable(...)`
it evaluated, whether it raised, and the registry afterwards (the registry of before when
it raised, since the assignment of line 414 was not reached). -/
structure InitResult (DT : Type) where
  constructed : List (Option Node × String)
  raised : Bool
  registry : Registry DT

/-- `ORBEON.widgets.datatable.init(klass)` (lines 410-416). -/
def init {DT : Type} (inherited : String → Bool) (construct : Node → String → Option DT)
    (document : Node) (datatables : Registry DT) (klass : String) : InitResult DT :=
  if isUndefined inherited datatables klass then
    let tables := getElementsByClassName document klass "table"
    match newDatatable construct tables[0]? klass with
    | none => { constructed := [(tables[0]?, klass)], raised := true, registry := datatables }
    | some dt =>
        { constructed := [(tables[0]?, klass)]
          raised := false
          registry := fun k => if k = klass then some dt else datatables k }
  else { constructed := [], raised := false, registry := datatables }

/-! ## Sample inputs -/

/-- A table with horizontal scrolling and a percentage width. -/
def sampleTable : Node :=
  .element "table" [("id", "orders-table"), ("class", "orders fr-scrollH")] []

/-- The inline style `width: 50%`. -/
def sampleStyle : InlineStyle := fun property => if property = "width" then "50%" else ""

/-- A layout in which the table is 1900 pixels wide at first and 1850 pixels wide and 400
pixels high without its size restriction, and 380 pixels high at both probed widths. -/
def sampleLayout : Layout :=
  { initial := ⟨0, 1900, 100, 0⟩
    unconstrained := ⟨0, 1850, 400, 0⟩
    atWidth := fun i => ⟨0, i + 3, 380, 0⟩ }

/-- A resizer of a column 100 pixels wide, grabbed at the horizontal position 100, with a
style array of one style. -/
def sampleResizer : ColResizer :=
  { index := 1, width := 100, resizerX := 100, rule := none, styles := some [⟨"80px", ""⟩] }

/-- A datatable 500 pixels wide without scrolling, so that `this.table` is `this.header`. -/
def sampleTableState : TableState :=
  { width := 500
    tableWidth := 480
    hasFixedWidthContainer := false
    hasFixedWidthTable := false
    container := ⟨"500px", ""⟩
    headerContainer := ⟨"500px", ""⟩
    header := ⟨"480px", ""⟩
    body := none }

/-- A header liner with a disabled trigger link followed by an enabled one. -/
def sampleLiner : Node :=
  .element "div" [("class", "yui-dt-liner")]
    [ .text " ",
      .element "span" []
        [.element "a" [("id", "sort$1"), ("class", "xforms-trigger xforms-disabled")] [.text "Name"]],
      .element "a" [("class", "xforms-control xforms-trigger"), ("id", "sort$2")]
        [.element "img" [] []] ]

/-- A document with two tables of class `orders`. -/
def sampleDocument : Node :=
  .element "html" []
    [.element "body" []
      [ .element "table" [("id", "first-table"), ("class", "wide orders")] [],
        .element "div" [("class", "orders")]
          [.element "table" [("id", "second-table"), ("class", "orders")] []] ]]

/-! ## Lemmas on `removeIdAttributes` -/

theorem removeIdChildNodes_eq_map (l : List Node) :
    removeIdChildNodes l = l.map (fun n => removeIdAttributes n false) := by
  induction l with
  | nil => simp [removeIdChildNodes]
  | cons n rest ih =>
      cases n <;> simp [removeIdChildNodes, removeIdAttributes, Node.nodeType, ih]

theorem childNodes_removeIdAttributes (n : Node) (s : Bool) :
    (removeIdAttributes n s).childNodes = n.childNodes.map (fun c => removeIdAttributes c false) := by
  cases n <;> simp [removeIdAttributes, Node.childNodes, removeIdChildNodes_eq_map]

theorem hasAttribute_removeAttribute (a : List Attr) (name : String) :
    hasAttribute (removeAttribute a name) name = false := by
  induction a with
  | nil => rfl
  | cons x xs ih =>
      simp only [removeAttribute, hasAttribute] at ih ⊢
      by_cases h : x.1 = name <;> simp [List.filter_cons, h, ih]

theorem removeAttribute_idem (a : List Attr) (name : String) :
    removeAttribute (removeAttribute a name) name = removeAttribute a name := by
  simp [removeAttribute, List.filter_filter]

theorem sameApartFromId_root (n : Node) (s : Bool) :
    sameApartFromId n (removeIdAttributes n s) := by
  cases n with
  | element t a c =>
      cases s <;>
        simp [removeIdAttributes, sameApartFromId, removeAttribute_idem,
          removeIdChildNodes_eq_map]
  | text d => simp [removeIdAttributes, sameApartFromId]
  | comment d => simp [removeIdAttributes, sameApartFromId]

theorem hasId_removeIdAttributes (n : Node) (s : Bool) :
    (removeIdAttributes n s).hasId = (s && n.hasId) := by
  cases n with
  | element t a c =>
      cases s <;>
        simp [removeIdAttributes, Node.hasId, Node.attrs, hasAttribute_removeAttribute]
  | text d => cases s <;> simp [removeIdAttributes, Node.hasId, Node.attrs, hasAttribute]
  | comment d => cases s <;> simp [removeIdAttributes, Node.hasId, Node.attrs, hasAttribute]

theorem nodeAt_removeIdAttributes (p : List Nat) :
    ∀ (n : Node) (s : Bool),
      (nodeAt n p = none → nodeAt (removeIdAttributes n s) p = none) ∧
      (∀ b, nodeAt n p = some b →
        ∃ a, nodeAt (removeIdAttributes n s) p = some a ∧ sameApartFromId b a ∧
          a.hasId = (decide (p = []) && s && n.hasId)) := by
  induction p with
  | nil =>
      intro n s
      refine ⟨by simp [nodeAt], ?_⟩
      intro b hb
      simp only [nodeAt, Option.some.injEq] at hb
      subst hb
      exact ⟨_, rfl, sameApartFromId_root _ _, by simp [hasId_removeIdAttributes]⟩
  | cons i p ih =>
      intro n s
      simp only [nodeAt, childNodes_removeIdAttributes, List.getElem?_map]
      cases hc : n.childNodes[i]? with
      | none => simp
      | some c =>
          simp only [Option.map_some']
          refine ⟨(ih c false).1, ?_⟩
          intro b hb
          obtain ⟨a, ha, hsame, hid⟩ := (ih c false).2 b hb
          exact ⟨a, ha, hsame, by simpa using hid⟩

/-! ## Lemmas on the probing loop and on pixel strings -/

theorem range_succ_map_probe (i : Int) (n : Nat) :
    (List.range (n + 1)).map (fun k : Nat => i + 50 * (k : Int)) =
      i :: (List.range n).map (fun k : Nat => (i + 50) + 50 * (k : Int)) := by
  rw [List.range_succ_eq_map]
  simp only [List.map_cons, List.map_map]
  congr 1
  · simp
  · apply List.map_congr_left
    intro k _
    simp only [Function.comp, Nat.succ_eq_add_one]
    push_cast
    ring

theorem probeLoop_spec (g : Int → Region) :
    ∀ (m : Nat) (i : Int) (s : ProbeState), (2000 - i).toNat = m →
      ∃ n : Nat,
        (∀ k : Nat, i + 50 * (k : Int) < 2000 ↔ k < n) ∧
        (probeLoop g i s).tried = s.tried ++ (List.range n).map (fun k : Nat => i + 50 * (k : Int)) ∧
        (probeLoop g i s).tableHeight ≤ s.tableHeight ∧
        (∀ k : Nat, k < n → (probeLoop g i s).tableHeight ≤ (g (i + 50 * (k : Int))).height) ∧
        ((∀ k : Nat, k < n → s.tableHeight ≤ (g (i + 50 * (k : Int))).height) →
          (probeLoop g i s).tableHeight = s.tableHeight ∧
          (probeLoop g i s).tableWidth = s.tableWidth) ∧
        ((∃ k : Nat, k < n ∧ (g (i + 50 * (k : Int))).height < s.tableHeight) →
          ∃ k : Nat, k < n ∧ (g (i + 50 * (k : Int))).height = (probeLoop g i s).tableHeight ∧
            (∀ j : Nat, j < k → (probeLoop g i s).tableHeight < (g (i + 50 * (j : Int))).height) ∧
            (probeLoop g i s).tableWidth = (g (i + 50 * (k : Int))).width) := by
  intro m
  induction m using Nat.strong_induction_on with
  | _ m ih =>
    intro i s hm
    by_cases hi : i < 2000
    · rw [probeLoop, if_pos hi]
      have hs2 : ∃ s2 : ProbeState,
          (if (g i).bottom - (g i).top < s.tableHeight then
            ({ tableWidth := (g i).right - (g i).left, tableHeight := (g i).bottom - (g i).top,
               tried := s.tried ++ [i] } : ProbeState)
          else { s with tried := s.tried ++ [i] }) = s2 ∧
          s2.tried = s.tried ++ [i] ∧
          ((g i).height < s.tableHeight → s2.tableHeight = (g i).height ∧ s2.tableWidth = (g i).width) ∧
          (¬ (g i).height < s.tableHeight → s2.tableHeight = s.tableHeight ∧ s2.tableWidth = s.tableWidth) := by
        refine ⟨_, rfl, ?_, ?_, ?_⟩
        · split <;> rfl
        · intro h
          rw [if_pos (by simpa [Region.height] using h)]
          exact ⟨rfl, rfl⟩
        · intro h
          rw [if_neg (by simpa [Region.height] using h)]
          exact ⟨rfl, rfl⟩
      obtain ⟨s2, hs2eq, hs2tried, hs2lt, hs2ge⟩ := hs2
      simp only [hs2eq]
      obtain ⟨n, hn, htried, hle, hall, hnone, hsome⟩ :=
        ih ((2000 - (i + 50)).toNat) (by omega) (i + 50) s2 rfl
      have hshift : ∀ k : Nat, i + 50 * ((k + 1 : Nat) : Int) = (i + 50) + 50 * (k : Int) := by
        intro k; push_cast; ring
      have hzero : i + 50 * ((0 : Nat) : Int) = i := by simp
      have hs2le : s2.tableHeight ≤ s.tableHeight ∧ s2.tableHeight ≤ (g i).height := by
        by_cases h : (g i).height < s.tableHeight
        · have := (hs2lt h).1; omega
        · have := (hs2ge h).1; omega
      refine ⟨n + 1, ?_, ?_, by omega, ?_, ?_, ?_⟩
      · intro k
        cases k with
        | zero => simp; omega
        | succ k => rw [hshift, hn k]; omega
      · rw [htried, hs2tried, range_succ_map_probe]; simp
      · intro k hk
        cases k with
        | zero => rw [hzero]; omega
        | succ k => rw [hshift]; exact hall k (by omega)
      · intro hge
        have h0 : ¬ (g i).height < s.tableHeight := by
          have := hge 0 (by omega); rw [hzero] at this; omega
        obtain ⟨e1, e2⟩ := hs2ge h0
        have := hnone (fun k hk => by
          have := hge (k + 1) (by omega); rw [hshift] at this; omega)
        exact ⟨by omega, by omega⟩
      · rintro ⟨k, hk, hklt⟩
        by_cases hlater : ∃ k : Nat, k < n ∧ (g (i + 50 + 50 * (k : Int))).height < s2.tableHeight
        · obtain ⟨k2, hk2, hk2eq, hk2first, hk2w⟩ := hsome hlater
          obtain ⟨k3, hk3, hk3lt⟩ := hlater
          have hstrict := hall k3 hk3
          refine ⟨k2 + 1, by omega, by rw [hshift]; exact hk2eq, ?_, by rw [hshift]; exact hk2w⟩
          intro j hj
          cases j with
          | zero => rw [hzero]; omega
          | succ j => rw [hshift]; exact hk2first j (by omega)
        · have hge : ∀ k : Nat, k < n → s2.tableHeight ≤ (g (i + 50 + 50 * (k : Int))).height := by
            intro k2 hk2
            by_contra hcon
            exact hlater ⟨k2, hk2, by omega⟩
          obtain ⟨e1, e2⟩ := hnone hge
          have h0 : (g i).height < s.tableHeight := by
            by_contra hcon
            obtain ⟨e3, e4⟩ := hs2ge hcon
            cases k with
            | zero => rw [hzero] at hklt; omega
            | succ k =>
                rw [hshift] at hklt
                have := hge k (by omega)
                omega
          obtain ⟨e3, e4⟩ := hs2lt h0
          refine ⟨0, by omega, by rw [hzero]; omega, ?_, by rw [hzero]; omega⟩
          intro j hj; omega
    · rw [probeLoop, if_neg hi]
      refine ⟨0, ?_, by simp, le_refl _, ?_, ?_, ?_⟩
      · intro k; constructor
        · intro h; omega
        · intro h; omega
      · intro k hk; omega
      · intro _; exact ⟨rfl, rfl⟩
      · rintro ⟨k, hk, _⟩; omega

theorem append_px_ne_auto (s : String) : s ++ "px" ≠ "auto" := by
  intro h
  have h1 := congrArg (fun t : String => t.data.reverse) h
  simp at h1

theorem px_ne_auto (n : Int) : px n ≠ "auto" := append_px_ne_auto _

/-! ## Lemmas on `queryFirst` -/

theorem queryChildren_sound (sel : Node → Bool) :
    ∀ (cs : List Node) (i : Nat) (p : List Nat) (a : Node),
      queryChildren sel cs i = some (p, a) →
      ∃ j c p', p = (i + j) :: p' ∧ cs[j]? = some c ∧
        ((p' = [] ∧ a = c ∧ sel c = true) ∨ queryFirst sel c = some (p', a)) := by
  intro cs
  induction cs with
  | nil => intro i p a h; simp [queryChildren] at h
  | cons c rest ih =>
      intro i p a h
      rw [queryChildren] at h
      by_cases hc : sel c = true
      · rw [if_pos hc] at h
        simp only [Option.some.injEq, Prod.mk.injEq] at h
        exact ⟨0, c, [], by simp [h.1], by simp, Or.inl ⟨rfl, h.2.symm, hc⟩⟩
      · rw [if_neg hc] at h
        cases hq : queryFirst sel c with
        | some r =>
            obtain ⟨p0, n0⟩ := r
            rw [hq] at h
            simp only [Option.some.injEq, Prod.mk.injEq] at h
            exact ⟨0, c, p0, by simp [h.1], by simp, Or.inr (by rw [hq, h.2])⟩
        | none =>
            rw [hq] at h
            obtain ⟨j, c2, p2, e1, e2, e3⟩ := ih (i + 1) p a h
            exact ⟨j + 1, c2, p2, by rw [e1]; congr 1; omega, by simpa using e2, e3⟩

theorem queryFirst_sound (sel : Node → Bool) :
    ∀ (p : List Nat) (n a : Node), queryFirst sel n = some (p, a) →
      p ≠ [] ∧ nodeAt n p = some a ∧ sel a = true := by
  intro p
  induction p with
  | nil =>
      intro n a h
      cases n with
      | element t attrs cs =>
          rw [queryFirst] at h
          obtain ⟨j, c, p2, e1, _⟩ := queryChildren_sound sel cs 0 [] a h
          cases e1
      | text d => simp [queryFirst] at h
      | comment d => simp [queryFirst] at h
  | cons k p1 ih =>
      intro n a h
      cases n with
      | element t attrs cs =>
          rw [queryFirst] at h
          obtain ⟨j, c, p2, e1, e2, e3⟩ := queryChildren_sound sel cs 0 (k :: p1) a h
          simp only [List.cons.injEq, zero_add] at e1
          obtain ⟨rfl, rfl⟩ := e1
          refine ⟨by simp, ?_⟩
          simp only [nodeAt, Node.childNodes, e2]
          rcases e3 with ⟨rfl, rfl, hs⟩ | hq
          · exact ⟨rfl, hs⟩
          · exact (ih c a hq).2
      | text d => simp [queryFirst] at h
      | comment d => simp [queryFirst] at h

theorem queryChildren_first (sel : Node → Bool) (q' : List Nat) :
    ∀ (cs : List Node) (i j : Nat) (c : Node), cs[j]? = some c →
      (sel c = true ∨ ∃ p' a, queryFirst sel c = some (p', a) ∧ precedes p' q' = true) →
      ∃ p a, queryChildren sel cs i = some (p, a) ∧ precedes p ((i + j) :: q') = true := by
  intro cs
  induction cs with
  | nil => intro i j c h; simp at h
  | cons c0 rest ih =>
      intro i j c hj H
      rw [queryChildren]
      by_cases hc : sel c0 = true
      · rw [if_pos hc]
        refine ⟨[i], c0, rfl, ?_⟩
        cases j <;> simp [precedes]
      · rw [if_neg hc]
        cases hq : queryFirst sel c0 with
        | some r =>
            obtain ⟨p0, n0⟩ := r
            refine ⟨i :: p0, n0, rfl, ?_⟩
            cases j with
            | zero =>
                simp only [List.getElem?_cons_zero, Option.some.injEq] at hj
                subst hj
                rcases H with hs | ⟨p', a, e1, e2⟩
                · exact absurd hs hc
                · rw [hq] at e1
                  simp only [Option.some.injEq, Prod.mk.injEq] at e1
                  simp [precedes, e1.1, e2]
            | succ j => simp [precedes]
        | none =>
            cases j with
            | zero =>
                simp only [List.getElem?_cons_zero, Option.some.injEq] at hj
                subst hj
                rcases H with hs | ⟨p', a, e1, _⟩
                · exact absurd hs hc
                · rw [hq] at e1; cases e1
            | succ j =>
                simp only [List.getElem?_cons_succ] at hj
                obtain ⟨p, a, e1, e2⟩ := ih (i + 1) j c hj H
                refine ⟨p, a, e1, ?_⟩
                have : i + (j + 1) = i + 1 + j := by omega
                rw [this]
                exact e2

theorem queryFirst_first (sel : Node → Bool) :
    ∀ (q : List Nat) (n m : Node), q ≠ [] → nodeAt n q = some m → sel m = true →
      ∃ p a, queryFirst sel n = some (p, a) ∧ precedes p q = true := by
  intro q
  induction q with
  | nil => intro n m h; exact absurd rfl h
  | cons j q' ih =>
      intro n m _ hm hs
      cases n with
      | element t attrs cs =>
          simp only [nodeAt, Node.childNodes] at hm
          cases hc : cs[j]? with
          | none => rw [hc] at hm; cases hm
          | some c =>
              rw [hc] at hm
              simp only at hm
              rw [queryFirst]
              have H : sel c = true ∨
                  ∃ p' a, queryFirst sel c = some (p', a) ∧ precedes p' q' = true := by
                cases q' with
                | nil =>
                    simp only [nodeAt, Option.some.injEq] at hm
                    subst hm
                    exact Or.inl hs
                | cons j2 q2 => exact Or.inr (ih c m (by simp) hm hs)
              simpa using queryChildren_first sel q' cs 0 j c hc H
      | text d => simp [nodeAt, Node.childNodes] at hm
      | comment d => simp [nodeAt, Node.childNodes] at hm

/-! ## Lemmas on the column loop -/

theorem columnRound_target (ie j : Nat) (col : HeaderColumn) (rule : Option Style)
    (hie : ie ≠ 0 → rule = none) (s : Option Style × Option ColResizer)
    (h : columnRound ie j col rule = some s) :
    (ie ≠ 0 → s.1 = none) ∧
    ∀ r, s.2 = some r → r.rule.isSome = true ∨ r.styles.isSome = true := by
  by_cases h0 : ie = 0
  · subst h0
    refine ⟨fun h => absurd rfl h, ?_⟩
    cases hapi : col.api with
    | addRule => simp [columnRound, hapi] at h
    | insertRule x =>
        simp only [columnRound, hapi, beq_self_eq_true, if_true, Option.map_some',
          Option.some.injEq] at h
        subst h
        intro r hr
        cases hres : col.resizeable <;> simp [hres, ColResizer.setRule] at hr
        subst hr
        exact Or.inl rfl
    | neither =>
        cases hrule : rule with
        | none =>
            simp only [columnRound, hapi, hrule, beq_self_eq_true, if_true, Option.map_some',
              Option.some.injEq] at h
            subst h
            intro r hr
            cases hres : col.resizeable <;> simp [hres, ColResizer.setStyleArray] at hr
            subst hr
            exact Or.inr rfl
        | some x =>
            simp only [columnRound, hapi, hrule, beq_self_eq_true, if_true, Option.map_some',
              Option.some.injEq] at h
            subst h
            intro r hr
            cases hres : col.resizeable <;> simp [hres, ColResizer.setRule] at hr
            subst hr
            exact Or.inl rfl
  · have hrule := hie h0
    subst hrule
    have hb : (ie == 0) = false := by simpa using h0
    simp only [columnRound, hb, Bool.false_eq_true, if_false, Option.map_some',
      Option.some.injEq] at h
    subst h
    refine ⟨fun _ => rfl, ?_⟩
    intro r hr
    cases hres : col.resizeable <;> simp [hres, ColResizer.setStyleArray] at hr
    subst hr
    exact Or.inr rfl

theorem columnLoop_targets (ie : Nat) :
    ∀ (cols : List HeaderColumn) (j : Nat) (rule : Option Style) (acc rs : List ColResizer),
      (ie ≠ 0 → rule = none) →
      (∀ r ∈ acc, r.rule.isSome = true ∨ r.styles.isSome = true) →
      columnLoop ie j cols rule acc = some rs →
      ∀ r ∈ rs, r.rule.isSome = true ∨ r.styles.isSome = true := by
  intro cols
  induction cols with
  | nil =>
      intro j rule acc rs _ hacc h
      simp only [columnLoop, Option.some.injEq] at h
      subst h
      exact hacc
  | cons col rest ih =>
      intro j rule acc rs hie hacc h
      rw [columnLoop] at h
      cases hround : columnRound ie j col rule with
      | none => rw [hround] at h; cases h
      | some s =>
          rw [hround] at h
          obtain ⟨h1, h2⟩ := columnRound_target ie j col rule hie s hround
          refine ih (j + 1) s.1 (acc ++ s.2.toList) rs h1 ?_ h
          intro r hr
          rcases List.mem_append.1 hr with hr | hr
          · exact hacc r hr
          · exact h2 r (by simpa [Option.mem_toList] using hr)

/-- Every resizer that the column loop of the constructor leaves in `this.colResizers`
has a rule or a style array. -/
theorem colResizers_have_target (ie : Nat) (cols : List HeaderColumn)
    (rs : List ColResizer) (h : columnLoop ie 0 cols none [] = some rs) :
    ∀ r ∈ rs, r.rule.isSome = true ∨ r.styles.isSome = true :=
  columnLoop_targets ie cols 0 none [] rs (fun _ => rfl) (by simp) h

/-! ## Lemmas on the assignment of widths -/

theorem setWidth_nonneg (engine : StyleEngine) (s : Style) (n : Int) (h : 0 ≤ n) :
    s.setWidth engine n = some { s with width := px n } := by
  simp [Style.setWidth, h]

theorem setWidth_ignores (s : Style) (n : Int) (h : n < 0) :
    s.setWidth StyleEngine.ignores n = some s := by
  have h2 : ¬ 0 ≤ n := by omega
  simp [Style.setWidth, h2]

theorem setWidth_raises (s : Style) (n : Int) (h : n < 0) :
    s.setWidth StyleEngine.raises n = none := by
  have h2 : ¬ 0 ≤ n := by omega
  simp [Style.setWidth, h2]

theorem setWidth_completes (engine : StyleEngine) (s : Style) (n : Int)
    (h : engine = StyleEngine.ignores ∨ 0 ≤ n) : ∃ s2, s.setWidth engine n = some s2 := by
  by_cases hn : 0 ≤ n
  · exact ⟨_, setWidth_nonneg engine s n hn⟩
  · rcases h with h | h
    · subst h
      exact ⟨s, setWidth_ignores s n (by omega)⟩
    · exact absurd h hn

theorem setWidths_nonneg (engine : StyleEngine) (n : Int) (h : 0 ≤ n) :
    ∀ l : List Style,
      setWidths engine l n = some (l.map (fun st => { st with width := px n })) := by
  intro l
  induction l with
  | nil => rfl
  | cons st rest ih => simp [setWidths, setWidth_nonneg engine st n h, ih]

theorem setWidths_ignores (n : Int) (h : n < 0) :
    ∀ l : List Style, setWidths StyleEngine.ignores l n = some l := by
  intro l
  induction l with
  | nil => rfl
  | cons st rest ih => simp [setWidths, setWidth_ignores st n h, ih]

theorem adjustWidth_completes (engine : StyleEngine) (d : TableState) (deltaX : Int)
    (index : Nat)
    (h : engine = StyleEngine.ignores ∨
      ((d.hasFixedWidthContainer = true ∨ 0 ≤ d.width + deltaX) ∧
        (d.hasFixedWidthTable = true ∨ 0 ≤ d.tableWidth + deltaX))) :
    ∃ d1, adjustWidth engine d deltaX index = some d1 := by
  have hw : d.hasFixedWidthContainer = false →
      engine = StyleEngine.ignores ∨ 0 ≤ d.width + deltaX := by
    intro hf
    rcases h with h | ⟨h1 | h1, _⟩
    · exact Or.inl h
    · rw [hf] at h1; cases h1
    · exact Or.inr h1
  have ht : d.hasFixedWidthTable = false →
      engine = StyleEngine.ignores ∨ 0 ≤ d.tableWidth + deltaX := by
    intro hf
    rcases h with h | ⟨_, h1 | h1⟩
    · exact Or.inl h
    · rw [hf] at h1; cases h1
    · exact Or.inr h1
  cases hfc : d.hasFixedWidthContainer
  · obtain ⟨c, hc⟩ := setWidth_completes engine d.container _ (hw hfc)
    obtain ⟨hdc, hhc⟩ := setWidth_completes engine d.headerContainer _ (hw hfc)
    cases hft : d.hasFixedWidthTable
    · obtain ⟨hd, hhd⟩ := setWidth_completes engine d.header _ (ht hft)
      cases hb : d.body with
      | none =>
          simp only [adjustWidth, hfc, hft, hb, hc, hhc, hhd, Bool.not_false, if_true,
            Option.bind_eq_bind, Option.some_bind, Option.pure_def, bind, pure]
          exact ⟨_, rfl⟩
      | some b =>
          obtain ⟨bc, hbc⟩ := setWidth_completes engine b.1 _ (hw hfc)
          obtain ⟨bt, hbt⟩ := setWidth_completes engine b.2 _ (ht hft)
          simp only [adjustWidth, hfc, hft, hb, hc, hhc, hhd, hbc, hbt, Bool.not_false,
            if_true, Option.bind_eq_bind, Option.some_bind, Option.pure_def,
            Option.map_some', bind, pure]
          exact ⟨_, rfl⟩
    · cases hb : d.body with
      | none =>
          simp only [adjustWidth, hfc, hft, hb, hc, hhc, Bool.not_false, Bool.not_true,
            if_true, Bool.false_eq_true, if_false, Option.bind_eq_bind, Option.some_bind,
            Option.pure_def, bind, pure]
          exact ⟨_, rfl⟩
      | some b =>
          obtain ⟨bc, hbc⟩ := setWidth_completes engine b.1 _ (hw hfc)
          simp only [adjustWidth, hfc, hft, hb, hc, hhc, hbc, Bool.not_false, Bool.not_true,
            if_true, Bool.false_eq_true, if_false, Option.bind_eq_bind, Option.some_bind,
            Option.pure_def, Option.map_some', bind, pure]
          exact ⟨_, rfl⟩
  · cases hft : d.hasFixedWidthTable
    · obtain ⟨hd, hhd⟩ := setWidth_completes engine d.header _ (ht hft)
      cases hb : d.body with
      | none =>
          simp only [adjustWidth, hfc, hft, hb, hhd, Bool.not_false, Bool.not_true,
            if_true, Bool.false_eq_true, if_false, Option.bind_eq_bind, Option.some_bind,
            Option.pure_def, bind, pure]
          exact ⟨_, rfl⟩
      | some b =>
          obtain ⟨bt, hbt⟩ := setWidth_completes engine b.2 _ (ht hft)
          simp only [adjustWidth, hfc, hft, hb, hhd, hbt, Bool.not_false, Bool.not_true,
            if_true, Bool.false_eq_true, if_false, Option.bind_eq_bind, Option.some_bind,
            Option.pure_def, Option.map_some', bind, pure]
          exact ⟨_, rfl⟩
    · simp only [adjustWidth, hfc, hft, Bool.not_true, Bool.false_eq_true, if_false,
        Option.bind_eq_bind, Option.some_bind, Option.pure_def, bind, pure]
      exact ⟨_, rfl⟩

theorem setTableDisplay_fields (d : TableState) (value : String) :
    (d.setTableDisplay value).width = d.width ∧
    (d.setTableDisplay value).tableWidth = d.tableWidth ∧
    (d.setTableDisplay value).hasFixedWidthContainer = d.hasFixedWidthContainer ∧
    (d.setTableDisplay value).hasFixedWidthTable = d.hasFixedWidthTable := by
  cases hb : d.body <;> simp [TableState.setTableDisplay, hb]

theorem onDrag_unfold (engine : StyleEngine) (r : ColResizer) (d d1 : TableState)
    (newX : Int)
    (hd1 : adjustWidth engine (d.setTableDisplay "none") (newX - r.resizerX) r.index =
      some d1) :
    onDrag engine r d newX =
      if r.width + (newX - r.resizerX) > 0 ∧ newX - r.resizerX ≠ 0 then
        match r.rule with
        | some rule =>
            match rule.setWidth engine (r.width + (newX - r.resizerX) - 20) with
            | none => none
            | some rule2 =>
                some ({ r with resizerX := newX, rule := some rule2,
                               width := r.width + (newX - r.resizerX) },
                  d1.setTableDisplay "")
        | none =>
            match r.styles with
            | none => none
            | some styles =>
                match setWidths engine styles (r.width + (newX - r.resizerX) - 20) with
                | none => none
                | some styles2 =>
                    some ({ r with resizerX := newX, styles := some styles2,
                                   width := r.width + (newX - r.resizerX) },
                      d1.setTableDisplay "")
      else some ({ r with resizerX := newX }, d1.setTableDisplay "") := by
  by_cases hc : r.width + (newX - r.resizerX) > 0 ∧ newX - r.resizerX ≠ 0
  · have hcond : (decide (r.width + (newX - r.resizerX) > 0) &&
        (r.width + (newX - r.resizerX) != r.width)) = true := by
      simp only [Bool.and_eq_true, decide_eq_true_eq, bne_iff_ne]
      exact ⟨hc.1, by omega⟩
    simp only [onDrag, hd1, hcond, if_true, if_pos hc, Option.bind_eq_bind, Option.some_bind,
      bind]
  · have hcond : (decide (r.width + (newX - r.resizerX) > 0) &&
        (r.width + (newX - r.resizerX) != r.width)) = false := by
      rw [Bool.eq_false_iff]
      simp only [ne_eq, Bool.and_eq_true, decide_eq_true_eq, bne_iff_ne]
      intro h
      exact hc ⟨h.1, by omega⟩
    simp only [onDrag, hd1, hcond, if_neg hc, Option.bind_eq_bind, Option.some_bind, bind]
    rfl

/-! ## Where the handlers raise -/

/-- With neither a rule nor a style array, `onDrag` raises as soon as the width should
change. -/
theorem onDrag_without_target (engine : StyleEngine) (r : ColResizer) (d : TableState)
    (newX : Int) (hrule : r.rule = none) (hstyles : r.styles = none)
    (hpos : r.width + (newX - r.resizerX) > 0) (hmove : newX - r.resizerX ≠ 0) :
    onDrag engine r d newX = none := by
  cases hd1 : adjustWidth engine (d.setTableDisplay "none") (newX - r.resizerX) r.index with
  | none => simp [onDrag, hd1]
  | some d1 =>
      rw [onDrag_unfold engine r d d1 newX hd1, if_pos ⟨hpos, hmove⟩]
      simp only [hrule, hstyles]

/-- Where a negative length raises, `onDrag` raises when the column would get narrower
than 20 pixels and the resizer has a rule. -/
theorem onDrag_negative_length_raises (r : ColResizer) (d : TableState) (newX : Int)
    (rule : Style) (hrule : r.rule = some rule)
    (hpos : r.width + (newX - r.resizerX) > 0) (hlt : r.width + (newX - r.resizerX) < 20)
    (hmove : newX - r.resizerX ≠ 0) :
    onDrag StyleEngine.raises r d newX = none := by
  cases hd1 : adjustWidth StyleEngine.raises (d.setTableDisplay "none") (newX - r.resizerX)
      r.index with
  | none => simp [onDrag, hd1]
  | some d1 =>
      rw [onDrag_unfold _ r d d1 newX hd1, if_pos ⟨hpos, hmove⟩]
      simp only [hrule, setWidth_raises rule _ (by omega : r.width + (newX - r.resizerX) - 20 < 0)]

/-- When the liner has no enabled trigger link, the click handler raises, whatever the
target. -/
theorem colSorterClick_without_link (liner : Node) (target : List Nat)
    (h : queryFirst isEnabledTrigger liner = none) :
    colSorterClick liner target = none := by
  simp [colSorterClick, h]

/-! ## The claims -/

/-- Claim C1: in the constructor, for a table that carries `fr-scrollH` and for any answers
of the layout, the probing loop sets exactly the widths `W0`, `W0 + 50`, `W0 + 100`, ...
that are below 2000, where `W0` is the larger of the unconstrained table width and the
pixel width measured first; it ends with `tableHeight` equal to the least of the initial
unconstrained height and the probed heights, and with `tableWidth` equal to 19 plus the
width measured at the first probe that reached that least height, or 19 plus `W0` when no
probe was strictly lower than the initial height. -/
theorem datatable_probing (table : Node) (style : InlineStyle) (layout : Layout) (ie : Nat)
    (hH : table.hasClass "fr-scrollH" = true) :
    ProbingOutcome (max layout.unconstrained.width layout.initial.width)
      layout.unconstrained.height layout.atWidth (datatable table style layout ie) := by
  have hW : (if layout.initial.right - layout.initial.left >
        layout.unconstrained.right - layout.unconstrained.left then
        layout.initial.right - layout.initial.left
      else layout.unconstrained.right - layout.unconstrained.left) =
      max (layout.unconstrained.right - layout.unconstrained.left)
        (layout.initial.right - layout.initial.left) := by
    split <;> omega
  obtain ⟨n, hn, htried, hle, hall, hnone, hsome⟩ :=
    probeLoop_spec layout.atWidth _
      (max (layout.unconstrained.right - layout.unconstrained.left)
        (layout.initial.right - layout.initial.left))
      { tableWidth := max (layout.unconstrained.right - layout.unconstrained.left)
          (layout.initial.right - layout.initial.left)
        tableHeight := layout.unconstrained.bottom - layout.unconstrained.top
        tried := [] } rfl
  simp only [List.nil_append, Region.width, Region.height] at htried hle hall hnone hsome
  simp only [ProbingOutcome, Region.width, Region.height]
  refine ⟨n, hn, ?_, ?_, ?_, ?_, ?_⟩
  all_goals simp only [datatable, hH, if_true, hW]
  · exact htried
  · exact hle
  · exact hall
  · intro h
    obtain ⟨e1, e2⟩ := hnone h
    exact ⟨e1, by omega⟩
  · intro h
    obtain ⟨k, hk, e1, e2, e3⟩ := hsome h
    exact ⟨k, hk, e1, e2, by omega⟩

/-- The probing theorem applied to the sample table and the sample layout: two widths are
probed, both give the height 380, and the width kept is the one of the first probe. -/
theorem datatable_probing_witness :
    sampleTable.hasClass "fr-scrollH" = true ∧
    ProbingOutcome (max sampleLayout.unconstrained.width sampleLayout.initial.width)
      sampleLayout.unconstrained.height sampleLayout.atWidth
      (datatable sampleTable sampleStyle sampleLayout 0) ∧
    (datatable sampleTable sampleStyle sampleLayout 0).tried = [1900, 1950] ∧
    (datatable sampleTable sampleStyle sampleLayout 0).tableHeight = 380 ∧
    (datatable sampleTable sampleStyle sampleLayout 0).tableWidth = 1922 := by
  have h : sampleTable.hasClass "fr-scrollH" = true := by decide
  refine ⟨h, datatable_probing sampleTable sampleStyle sampleLayout 0 h, ?_⟩
  simp [datatable, h, sampleLayout, probeLoop]

/-- Claim C2 as stated fails: a column 100 pixels wide is dragged 90 pixels to the left, so
that `width + deltaX` is 10 and the length to assign is `-10px`.  A style object that
ignores a negative length keeps its `80px` while the resizer's width becomes 10; where the
assignment raises, the handler raises. -/
theorem onDrag_negative_length_counterexample :
    sampleResizer.width + (10 - sampleResizer.resizerX) > 0 ∧
    10 - sampleResizer.resizerX ≠ 0 ∧
    px (sampleResizer.width + (10 - sampleResizer.resizerX) - 20) = "-10px" ∧
    (onDrag StyleEngine.ignores sampleResizer sampleTableState 10).map
        (fun x => (x.1.width, x.1.styles)) = some (10, some [⟨"80px", ""⟩]) ∧
    onDrag StyleEngine.raises sampleResizer sampleTableState 10 = none := by
  decide

/-- Claim C2, amended: for a `colResizer` that has a rule or a style array and a drag event
at horizontal position `newX`, where the style objects ignore a negative length or no
negative length is assigned to the table and its containers, `onDrag` hands
`deltaX = newX - resizerX` to `adjustWidth` and sets `resizerX` to `newX`.  When
`width + deltaX` is at least 20 and `deltaX` is not zero, the resizer's width becomes
`width + deltaX` and the rule, or without a rule every style of the style array, gets the
width `(width + deltaX - 20) px`.  When `width + deltaX` is not positive or `deltaX` is
zero, the width, the rule and the styles are as before.  When `width + deltaX` is
positive but below 20 and `deltaX` is not zero, the length is negative: style objects that
ignore it keep the rule and the styles as before, while the resizer's width becomes
`width + deltaX`. -/
theorem onDrag_spec (engine : StyleEngine) (r : ColResizer) (d : TableState) (newX : Int)
    (htarget : r.rule.isSome = true ∨ r.styles.isSome = true)
    (hlen : engine = StyleEngine.ignores ∨
      ((d.hasFixedWidthContainer = true ∨ 0 ≤ d.width + (newX - r.resizerX)) ∧
        (d.hasFixedWidthTable = true ∨ 0 ≤ d.tableWidth + (newX - r.resizerX)))) :
    ∃ d1 r2,
      adjustWidth engine (d.setTableDisplay "none") (newX - r.resizerX) r.index = some d1 ∧
      (20 ≤ r.width + (newX - r.resizerX) ∧ newX - r.resizerX ≠ 0 →
        onDrag engine r d newX = some (r2, d1.setTableDisplay "") ∧
        r2.resizerX = newX ∧
        r2.width = r.width + (newX - r.resizerX) ∧
        (∀ rule, r.rule = some rule →
          r2.rule = some { rule with width := px (r.width + (newX - r.resizerX) - 20) } ∧
          r2.styles = r.styles) ∧
        (r.rule = none →
          r2.rule = none ∧
          r2.styles = r.styles.map (List.map
            (fun st => { st with width := px (r.width + (newX - r.resizerX) - 20) })))) ∧
      (¬ (r.width + (newX - r.resizerX) > 0 ∧ newX - r.resizerX ≠ 0) →
        onDrag engine r d newX = some (r2, d1.setTableDisplay "") ∧
        r2.resizerX = newX ∧
        r2.width = r.width ∧ r2.rule = r.rule ∧ r2.styles = r.styles) ∧
      (0 < r.width + (newX - r.resizerX) ∧ r.width + (newX - r.resizerX) < 20 ∧
          newX - r.resizerX ≠ 0 → engine = StyleEngine.ignores →
        onDrag engine r d newX = some (r2, d1.setTableDisplay "") ∧
        r2.resizerX = newX ∧
        r2.width = r.width + (newX - r.resizerX) ∧ r2.rule = r.rule ∧
        r2.styles = r.styles) := by
  obtain ⟨hf1, hf2, hf3, hf4⟩ := setTableDisplay_fields d "none"
  obtain ⟨d1, hd1⟩ := adjustWidth_completes engine (d.setTableDisplay "none")
    (newX - r.resizerX) r.index (by rw [hf1, hf2, hf3, hf4]; exact hlen)
  have hun := onDrag_unfold engine r d d1 newX hd1
  by_cases hc : r.width + (newX - r.resizerX) > 0 ∧ newX - r.resizerX ≠ 0
  · rw [if_pos hc] at hun
    by_cases h20 : 20 ≤ r.width + (newX - r.resizerX)
    · -- the length is not negative
      have hn : 0 ≤ r.width + (newX - r.resizerX) - 20 := by omega
      cases hr : r.rule with
      | some rule =>
          rw [hr] at hun
          simp only [setWidth_nonneg engine rule _ hn] at hun
          refine ⟨d1, _, hd1, fun _ => ⟨hun, rfl, rfl, ?_, ?_⟩, fun h => absurd hc h,
            fun h => by omega⟩
          · intro rule2 h2
            cases h2
            exact ⟨rfl, rfl⟩
          · intro h
            cases h
      | none =>
          cases hs : r.styles with
          | none => simp [hr, hs] at htarget
          | some styles =>
              rw [hr] at hun
              simp only [hs, setWidths_nonneg engine _ hn styles] at hun
              refine ⟨d1, _, hd1, fun _ => ⟨hun, rfl, rfl, ?_, ?_⟩, fun h => absurd hc h,
                fun h => by omega⟩
              · intro rule2 h2
                cases h2
              · intro _
                exact ⟨rfl, rfl⟩
    · -- the length is negative
      have hn : r.width + (newX - r.resizerX) - 20 < 0 := by omega
      by_cases he : engine = StyleEngine.ignores
      · subst he
        cases hr : r.rule with
        | some rule =>
            rw [hr] at hun
            simp only [setWidth_ignores rule _ hn] at hun
            exact ⟨d1, _, hd1, fun h => by omega, fun h => absurd hc h,
              fun _ _ => ⟨hun, rfl, rfl, rfl, rfl⟩⟩
        | none =>
            cases hs : r.styles with
            | none => simp [hr, hs] at htarget
            | some styles =>
                rw [hr] at hun
                simp only [hs, setWidths_ignores _ hn styles] at hun
                exact ⟨d1, _, hd1, fun h => by omega, fun h => absurd hc h,
                  fun _ _ => ⟨hun, rfl, rfl, rfl, rfl⟩⟩
      · exact ⟨d1, r, hd1, fun h => by omega, fun h => absurd hc h, fun _ h => absurd h he⟩
  · rw [if_neg hc] at hun
    exact ⟨d1, _, hd1, fun h => absurd ⟨by omega, h.2⟩ hc, fun _ => ⟨hun, rfl, rfl, rfl, rfl⟩,
      fun h => absurd ⟨h.1, h.2.2⟩ hc⟩

/-- The drag theorem applied to a resizer with two styles, dragged five pixels to the
right. -/
theorem onDrag_spec_witness :
    ((ColResizer.mk 1 100 40 none (some [⟨"80px", ""⟩, ⟨"80px", ""⟩])).rule.isSome = true ∨
      (ColResizer.mk 1 100 40 none (some [⟨"80px", ""⟩, ⟨"80px", ""⟩])).styles.isSome = true) ∧
    (StyleEngine.raises = StyleEngine.ignores ∨
      ((sampleTableState.hasFixedWidthContainer = true ∨
          0 ≤ sampleTableState.width + (45 - 40)) ∧
        (sampleTableState.hasFixedWidthTable = true ∨
          0 ≤ sampleTableState.tableWidth + (45 - 40)))) ∧
    ∃ r2 d2,
      onDrag StyleEngine.raises (ColResizer.mk 1 100 40 none (some [⟨"80px", ""⟩, ⟨"80px", ""⟩]))
        sampleTableState 45 = some (r2, d2) ∧
      r2.width = 105 ∧ r2.resizerX = 45 ∧ r2.styles = some [⟨"85px", ""⟩, ⟨"85px", ""⟩] := by
  have hlen : StyleEngine.raises = StyleEngine.ignores ∨
      ((sampleTableState.hasFixedWidthContainer = true ∨
          0 ≤ sampleTableState.width + (45 - 40)) ∧
        (sampleTableState.hasFixedWidthTable = true ∨
          0 ≤ sampleTableState.tableWidth + (45 - 40))) := by decide
  refine ⟨Or.inr rfl, hlen, ?_⟩
  obtain ⟨d1, r2, _, hchange, _, _⟩ :=
    onDrag_spec StyleEngine.raises
      (ColResizer.mk 1 100 40 none (some [⟨"80px", ""⟩, ⟨"80px", ""⟩])) sampleTableState 45
      (Or.inr rfl) hlen
  obtain ⟨h, hx, hw, _, hs⟩ := hchange (by decide)
  exact ⟨r2, _, h, by simpa using hw, hx, by rw [(hs rfl).2]; decide⟩

/-- Claim C3: for a liner that contains an enabled trigger link (an `a.xforms-trigger`
that is not `xforms-disabled`) and a click on any target, the link `a` that the handler
queries is the first such link of the liner in document order; the handler dispatches
exactly one event, `DOMActivate` to the id of `a`, when the target is not `a`, and
dispatches nothing when the target is `a`. -/
theorem colSorterClick_spec (liner : Node) (target : List Nat)
    (hlink : ∃ q n, q ≠ [] ∧ nodeAt liner q = some n ∧ isEnabledTrigger n = true) :
    ∃ p a, p ≠ [] ∧ nodeAt liner p = some a ∧ isEnabledTrigger a = true ∧
      (∀ q n, q ≠ [] → nodeAt liner q = some n → isEnabledTrigger n = true →
        precedes p q = true) ∧
      (target ≠ p →
        colSorterClick liner target = some [{ targetId := a.id, eventName := "DOMActivate" }]) ∧
      (target = p → colSorterClick liner target = some []) := by
  obtain ⟨q0, n0, hq0, hn0, hs0⟩ := hlink
  obtain ⟨p, a, hpa, _⟩ := queryFirst_first isEnabledTrigger q0 liner n0 hq0 hn0 hs0
  obtain ⟨hp, hat, hsel⟩ := queryFirst_sound isEnabledTrigger p liner a hpa
  refine ⟨p, a, hp, hat, hsel, ?_, ?_, ?_⟩
  · intro q n hq hn hs
    obtain ⟨p2, a2, e1, e2⟩ := queryFirst_first isEnabledTrigger q liner n hq hn hs
    rw [hpa] at e1
    simp only [Option.some.injEq, Prod.mk.injEq] at e1
    rw [e1.1]
    exact e2
  · intro ht
    simp [colSorterClick, hpa, ht]
  · intro ht
    simp [colSorterClick, hpa, ht]

/-- The click theorem applied to the sample liner, for a click on the image inside the
enabled link: one `DOMActivate` goes to `sort$2`; a click on the link itself dispatches
nothing. -/
theorem colSorterClick_spec_witness :
    (∃ q n, q ≠ [] ∧ nodeAt sampleLiner q = some n ∧ isEnabledTrigger n = true) ∧
    (∃ p a, p ≠ [] ∧ nodeAt sampleLiner p = some a ∧ isEnabledTrigger a = true ∧
      (∀ q n, q ≠ [] → nodeAt sampleLiner q = some n → isEnabledTrigger n = true →
        precedes p q = true) ∧
      ([2, 0] ≠ p →
        colSorterClick sampleLiner [2, 0] =
          some [{ targetId := a.id, eventName := "DOMActivate" }]) ∧
      ([2, 0] = p → colSorterClick sampleLiner [2, 0] = some [])) ∧
    colSorterClick sampleLiner [2, 0] =
      some [{ targetId := "sort$2", eventName := "DOMActivate" }] ∧
    colSorterClick sampleLiner [2] = some [] :=
  ⟨⟨[2], _, by decide, rfl, by decide⟩,
    colSorterClick_spec sampleLiner [2, 0] ⟨[2], _, by decide, rfl, by decide⟩,
    by decide, by decide⟩

/-- Claim C4 as stated fails: no datatable is registered under `invoices` and the
document has no table of that class, so `new ORBEON.widgets.datatable(undefined, klass)`
raises and `init` registers nothing. -/
theorem init_without_table_counterexample :
    (fun _ => none : Registry Unit) "invoices" = none ∧
    getElementsByClassName sampleDocument "invoices" "table" = [] ∧
    (init (fun _ => false) (fun _ _ => some ()) sampleDocument (fun _ => none)
      "invoices").raised = true ∧
    (init (fun _ => false) (fun _ _ => some ()) sampleDocument (fun _ => none)
      "invoices").registry "invoices" = none :=
  ⟨rfl, by rfl, by decide, by decide⟩

/-- Claim C4, amended: `init` initialises a datatable at most once per class.  If a
datatable is registered under `klass`, `init(klass)` constructs nothing and leaves the
registry as it is.  If none is registered, `klass` is not a property name that the
registry object inherits, a table element carries the class and the constructor completes
on the first such element, then `init(klass)` constructs once, from that element, and
registers the result under `klass`.  Entries of other classes never change.  After a call
that did not raise, a second call constructs nothing and leaves the registry as the first
call left it. -/
theorem init_spec {DT : Type} (inherited : String → Bool)
    (construct : Node → String → Option DT) (document : Node) (datatables : Registry DT)
    (klass : String) :
    (∀ dt, datatables klass = some dt →
      (init inherited construct document datatables klass).constructed = [] ∧
      (init inherited construct document datatables klass).raised = false ∧
      (init inherited construct document datatables klass).registry = datatables) ∧
    (∀ t dt, datatables klass = none → inherited klass = false →
      (getElementsByClassName document klass "table").head? = some t →
      construct t klass = some dt →
      (init inherited construct document datatables klass).constructed = [(some t, klass)] ∧
      (init inherited construct document datatables klass).raised = false ∧
      (init inherited construct document datatables klass).registry klass = some dt) ∧
    (∀ k, k ≠ klass →
      (init inherited construct document datatables klass).registry k = datatables k) ∧
    ((init inherited construct document datatables klass).raised = false →
      ∀ (construct2 : Node → String → Option DT) (document2 : Node),
        (init inherited construct2 document2
          (init inherited construct document datatables klass).registry klass).constructed = [] ∧
        (init inherited construct2 document2
          (init inherited construct document datatables klass).registry klass).raised = false ∧
        (init inherited construct2 document2
          (init inherited construct document datatables klass).registry klass).registry =
          (init inherited construct document datatables klass).registry) := by
  refine ⟨?_, ?_, ?_, ?_⟩
  · intro dt h
    simp [init, isUndefined, h]
  · intro t dt h hi ht hc
    have ht0 : (getElementsByClassName document klass "table")[0]? = some t := by
      rw [← ht]; cases getElementsByClassName document klass "table" <;> simp
    simp [init, isUndefined, h, hi, ht0, newDatatable, hc]
  · intro k hk
    simp only [init]
    split
    · split <;> simp [hk]
    · rfl
  · intro hr c2 d2
    by_cases hu : isUndefined inherited datatables klass = true
    · simp only [init, hu, if_true] at hr ⊢
      cases hn : newDatatable construct (getElementsByClassName document klass "table")[0]? klass with
      | none => rw [hn] at hr; simp at hr
      | some dt => simp [isUndefined]
    · have hu2 : isUndefined inherited datatables klass = false := by simpa using hu
      simp [init, hu2]

/-- The registration clause of the `init` theorem applied to the sample document. -/
theorem init_spec_witness :
    (fun _ => none : Registry String) "orders" = none ∧
    (getElementsByClassName sampleDocument "orders" "table").head? =
      some (.element "table" [("id", "first-table"), ("class", "wide orders")] []) ∧
    (init (fun k => k == "constructor") (fun e index => some (e.id ++ "/" ++ index))
      sampleDocument (fun _ => none) "orders").registry "orders" = some "first-table/orders" ∧
    (init (fun k => k == "constructor") (fun e index => some (e.id ++ "/" ++ index))
      sampleDocument (fun _ => none) "orders").raised = false := by
  obtain ⟨_, hnew, _, _⟩ :=
    init_spec (fun k => k == "constructor") (fun e index => some (e.id ++ "/" ++ index))
      sampleDocument (fun _ => none) "orders"
  obtain ⟨_, hr, hk⟩ :=
    hnew (.element "table" [("id", "first-table"), ("class", "wide orders")] [])
      "first-table/orders" rfl (by decide) (by rfl) (by decide)
  exact ⟨rfl, by rfl, hk, hr⟩

/-- Claim C5: for every finite DOM tree rooted at an element, after
`removeIdAttributes(element, skipSelf)` every position of the tree still holds a node of
the same kind with the same tag, the same attributes other than `id` and the same number
of children (non-element nodes are identical), no position is added or lost, and the
node at a position carries an `id` attribute if and only if the position is the root,
`skipSelf` is true and the root had an `id` before.  The function is a total structural
recursion, so the call terminates on every finite tree. -/
theorem removeIdAttributes_spec (tag : String) (attrs : List Attr) (childNodes : List Node)
    (skipSelf : Bool) (p : List Nat) :
    (nodeAt (Node.element tag attrs childNodes) p = none ∧
      nodeAt (removeIdAttributes (Node.element tag attrs childNodes) skipSelf) p = none) ∨
    (∃ before after,
      nodeAt (Node.element tag attrs childNodes) p = some before ∧
      nodeAt (removeIdAttributes (Node.element tag attrs childNodes) skipSelf) p = some after ∧
      sameApartFromId before after ∧
      (after.hasId = true ↔
        p = [] ∧ skipSelf = true ∧ hasAttribute attrs "id" = true)) := by
  have h := nodeAt_removeIdAttributes p (Node.element tag attrs childNodes) skipSelf
  cases hb : nodeAt (Node.element tag attrs childNodes) p with
  | none => exact Or.inl ⟨rfl, h.1 hb⟩
  | some b =>
      obtain ⟨a, ha, hsame, hid⟩ := h.2 b hb
      refine Or.inr ⟨b, a, rfl, ha, hsame, ?_⟩
      rw [hid]
      simp [Node.hasId, Node.attrs, and_assoc]

/-- Claim C6 as stated fails: a table with the inline width `auto` and the class
`fr-scrollH` has a non-empty inline width and horizontal scrolling, yet its
`hasFixedWidthContainer` is false. -/
theorem datatable_inline_auto_counterexample :
    ¬ ((datatable (.element "table" [("id", "t-table"), ("class", "fr-scrollH")] [])
          (fun property => if property = "width" then "auto" else "")
          { initial := ⟨0, 300, 100, 0⟩
            unconstrained := ⟨0, 250, 400, 0⟩
            atWidth := fun i => ⟨0, i, 400, 0⟩ } 0).hasFixedWidthContainer = true ↔
        ((fun property => if property = "width" then "auto" else "") "width" ≠ "" ∧
          (Node.element "table" [("id", "t-table"), ("class", "fr-scrollH")] []).hasClass
            "fr-scrollH" = true)) := by
  decide

/-- Claim C6, amended: after the constructor, `hasFixedWidthTable` is false for every
table, and `hasFixedWidthContainer` is true exactly when the inline width of the table is
neither empty nor `auto` and the table carries the class `fr-scrollH`. -/
theorem datatable_fixed_width_flags (table : Node) (style : InlineStyle) (layout : Layout)
    (ie : Nat) :
    (datatable table style layout ie).hasFixedWidthTable = false ∧
    ((datatable table style layout ie).hasFixedWidthContainer = true ↔
      (style "width" ≠ "" ∧ style "width" ≠ "auto" ∧ table.hasClass "fr-scrollH" = true)) := by
  have hw : ((if (getStyle style "width" "auto").toList.contains '%' then
        px (layout.initial.right - layout.initial.left)
      else getStyle style "width" "auto") != "auto") = true ↔
      (style "width" ≠ "" ∧ style "width" ≠ "auto") := by
    by_cases he : style "width" = ""
    · simp [getStyle, he]
    · by_cases hp : '%' ∈ (style "width").data
      · have ha : style "width" ≠ "auto" := by
          intro h
          rw [h] at hp
          revert hp
          decide
        simp [getStyle, he, hp, ha, px_ne_auto]
      · simp [getStyle, he, hp]
  simp only [datatable]
  cases hH : table.hasClass "fr-scrollH" <;>
    by_cases hc : ((if (getStyle style "width" "auto").toList.contains '%' then
        px (layout.initial.right - layout.initial.left)
      else getStyle style "width" "auto") != "auto") = true
  · simp [hc]
  · simp [hc]
  · simp [hc, ← hw]
  · simp [hc, ← hw]

end Datatable
